import Mathlib

/-!
Verification of the branch-manager dashboard backend: shallow embedding of
the TTL cache, rate limiter, KPI aggregation, period bucketing, ranking and
insight generation, with theorems settling the specification claims.

JavaScript numbers are modelled as `ℚ` (all arithmetic in the source is
exact decimal/ratio arithmetic on values far below 2^53), millisecond
timestamps as `ℤ`/`ℕ`, and JS objects/maps as association lists or
functions to `Option`.
-/

/-! ### TTL cache (src/utils/cache.ts)

The `Cache` class stores `{ data, expiresAt }` items in a `Map` keyed by
string.  The mutable map is modelled as a function `String → Option`.
`Date.now()` is passed explicitly as `now`. -/

structure CacheItem (V : Type) where
  data : V
  expiresAt : ℕ
deriving DecidableEq

def CacheState (V : Type) : Type := String → Option (CacheItem V)

def emptyCache {V : Type} : CacheState V := fun _ => none

/-- `set(key, value, ttl?)`: `expiresAt = Date.now() + (ttl ? ttl * 1000 : this.defaultTTL)`.
`ttl ? … : …` is JS truthiness: an absent ttl *or* `ttl = 0` falls back to
`defaultTTL` (milliseconds). -/
def cacheSet {V : Type} (s : CacheState V) (key : String) (value : V)
    (ttl : Option ℕ) (defaultTTL : ℕ) (now : ℕ) : CacheState V :=
  let ttlMs : ℕ := match ttl with
    | some t => if 0 < t then t * 1000 else defaultTTL
    | none => defaultTTL
  fun k => if k = key then some ⟨value, now + ttlMs⟩ else s k

/-- `get(key)`: returns `null` on a missing item; on `Date.now() > item.expiresAt`
deletes the entry and returns `null`; otherwise returns the stored data.
Result is the returned value together with the state after the read. -/
def cacheGet {V : Type} (s : CacheState V) (key : String) (now : ℕ) :
    Option V × CacheState V :=
  match s key with
  | none => (none, s)
  | some item =>
    if item.expiresAt < now then
      (none, fun k => if k = key then none else s k)
    else
      (some item.data, s)

/-- `cleanup()`: the background sweep deletes every entry with `now > expiresAt`. -/
def cacheCleanup {V : Type} (s : CacheState V) (now : ℕ) : CacheState V :=
  fun k => match s k with
    | some item => if item.expiresAt < now then none else some item
    | none => none

/-! ### Rate limiter (src/middleware/rateLimit.middleware.ts)

The in-memory store `{ [key]: { count, resetTime } }` is a function
`String → Option RateRecord`; a single middleware invocation for a given
key at time `now` is `rateLimitCheck`. -/

structure RateRecord where
  count : ℕ
  resetTime : ℕ
deriving DecidableEq

def RateStore : Type := String → Option RateRecord

inductive RateDecision where
  | admitted : RateDecision
  | rejected (retryAfter : ℕ) : RateDecision
deriving DecidableEq

/-- `Math.ceil(n / 1000)` for a non-negative integer `n`. -/
def ceilDiv1000 (n : ℕ) : ℕ := (n + 999) / 1000

/-- One request through the `rateLimit` middleware: fresh or expired records
are replaced by `{count: 1, resetTime: now + windowMs}` and admitted;
otherwise `record.count++` (the increment is stored even when the request is
rejected), and the request is rejected with
`retryAfter = Math.ceil((resetTime - now) / 1000)` when `count > maxRequests`. -/
def rateLimitCheck (maxRequests windowMs : ℕ) (st : RateStore) (key : String)
    (now : ℕ) : RateDecision × RateStore :=
  match st key with
  | none =>
    (.admitted, fun k => if k = key then some ⟨1, now + windowMs⟩ else st k)
  | some record =>
    if record.resetTime < now then
      (.admitted, fun k => if k = key then some ⟨1, now + windowMs⟩ else st k)
    else
      let c := record.count + 1
      let st' : RateStore := fun k => if k = key then some ⟨c, record.resetTime⟩ else st k
      if maxRequests < c then
        (.rejected (ceilDiv1000 (record.resetTime - now)), st')
      else
        (.admitted, st')

def emptyRateStore : RateStore := fun _ => none

/-- A sequence of middleware invocations for one key, threading the store. -/
def rateLimitRun (maxRequests windowMs : ℕ) (st : RateStore) (key : String) :
    List ℕ → List RateDecision × RateStore
  | [] => ([], st)
  | t :: ts =>
    let r := rateLimitCheck maxRequests windowMs st key t
    let rest := rateLimitRun maxRequests windowMs r.2 key ts
    (r.1 :: rest.1, rest.2)

lemma rateLimitCheck_fresh {st : RateStore} {key : String} {m w n : ℕ}
    (h : st key = none) :
    rateLimitCheck m w st key n =
      (.admitted, fun k => if k = key then some ⟨1, n + w⟩ else st k) := by
  simp [rateLimitCheck, h]

lemma rateLimitCheck_expired {st : RateStore} {key : String} {m w n : ℕ}
    {r : RateRecord} (h : st key = some r) (hc : r.resetTime < n) :
    rateLimitCheck m w st key n =
      (.admitted, fun k => if k = key then some ⟨1, n + w⟩ else st k) := by
  simp [rateLimitCheck, h, hc]

lemma rateLimitCheck_active {st : RateStore} {key : String} {m w n : ℕ}
    {r : RateRecord} (h : st key = some r) (hc : ¬ r.resetTime < n)
    (hlim : ¬ m < r.count + 1) :
    rateLimitCheck m w st key n =
      (.admitted, fun k => if k = key then some ⟨r.count + 1, r.resetTime⟩ else st k) := by
  simp [rateLimitCheck, h, hc, hlim]

lemma rateLimitCheck_reject {st : RateStore} {key : String} {m w n : ℕ}
    {r : RateRecord} (h : st key = some r) (hc : ¬ r.resetTime < n)
    (hlim : m < r.count + 1) :
    rateLimitCheck m w st key n =
      (.rejected (ceilDiv1000 (r.resetTime - n)),
        fun k => if k = key then some ⟨r.count + 1, r.resetTime⟩ else st k) := by
  simp [rateLimitCheck, h, hc, hlim]

/-- **C2.** After `set(key, v, ttl)` at time `t₀`, a `get` at any time
`t ≤ t₀ + ttl·1000` returns `v`; at any time strictly past the expiry it
returns absent *and* the read path itself has evicted the entry; and the
within-ttl read still returns `v` even if the background sweep ran at any
time `ts ≤ t` in between. -/
theorem claim_c2_cache_read_correct {V : Type} (s : CacheState V) (key : String)
    (v : V) (ttl defaultTTL t₀ t ts : ℕ) (httl : 0 < ttl) :
    (t ≤ t₀ + ttl * 1000 →
      (cacheGet (cacheSet s key v (some ttl) defaultTTL t₀) key t).1 = some v) ∧
    (t₀ + ttl * 1000 < t →
      (cacheGet (cacheSet s key v (some ttl) defaultTTL t₀) key t).1 = none ∧
      (cacheGet (cacheSet s key v (some ttl) defaultTTL t₀) key t).2 key = none) ∧
    (ts ≤ t → t ≤ t₀ + ttl * 1000 →
      (cacheGet (cacheCleanup (cacheSet s key v (some ttl) defaultTTL t₀) ts) key t).1
        = some v) := by
  have hget : ∀ (s' : CacheState V) (item : CacheItem V), s' key = some item →
      cacheGet s' key t =
        if item.expiresAt < t then (none, fun k => if k = key then none else s' k)
        else (some item.data, s') := by
    intro s' item h
    simp [cacheGet, h]
  have hlook : (cacheSet s key v (some ttl) defaultTTL t₀) key =
      some ⟨v, t₀ + ttl * 1000⟩ := by
    simp [cacheSet, httl]
  refine ⟨fun h => ?_, fun h => ?_, fun hts h => ?_⟩
  · rw [hget _ _ hlook, if_neg (by simp; omega)]
  · rw [hget _ _ hlook, if_pos (by simpa using h)]
    simp
  · have hclean : cacheCleanup (cacheSet s key v (some ttl) defaultTTL t₀) ts key =
        some ⟨v, t₀ + ttl * 1000⟩ := by
      simp only [cacheCleanup, hlook]
      rw [if_neg (by simp; omega)]
    rw [hget _ _ hclean, if_neg (by simp; omega)]

theorem claim_c2_cache_read_correct_witness :
    (0 < 300) ∧
    (cacheGet (cacheSet (emptyCache (V := ℕ)) "dashboard" 42 (some 300) 300000 1000)
        "dashboard" 301000).1 = some 42 ∧
    (cacheGet (cacheSet (emptyCache (V := ℕ)) "dashboard" 42 (some 300) 300000 1000)
        "dashboard" 301001).1 = none :=
  ⟨by decide,
   (claim_c2_cache_read_correct emptyCache "dashboard" 42 300 300000 1000 301000 0
      (by decide)).1 (by decide),
   ((claim_c2_cache_read_correct emptyCache "dashboard" 42 300 300000 1000 301001 0
      (by decide)).2.1 (by decide)).1⟩

/-- **C3.** With `max = 3, window = 1000ms` and no existing record for the
key: three requests inside the window are admitted, the fourth inside the
window is rejected with `retryAfter = ⌈(resetTime − now)/1000⌉ > 0`, and a
request strictly after the window's reset time is admitted with the stored
count reset to 1 and a fresh window. -/
theorem claim_c3_rate_limiter_window (st : RateStore) (key : String)
    (t₁ t₂ t₃ t₄ t₅ : ℕ) (h0 : st key = none)
    (h12 : t₁ ≤ t₂) (h23 : t₂ ≤ t₃) (h34 : t₃ ≤ t₄)
    (hw2 : t₂ < t₁ + 1000) (hw3 : t₃ < t₁ + 1000) (hw4 : t₄ < t₁ + 1000)
    (h5 : t₁ + 1000 < t₅) :
    (rateLimitRun 3 1000 st key [t₁, t₂, t₃, t₄, t₅]).1 =
      [.admitted, .admitted, .admitted,
       .rejected (ceilDiv1000 (t₁ + 1000 - t₄)), .admitted] ∧
    0 < ceilDiv1000 (t₁ + 1000 - t₄) ∧
    (rateLimitRun 3 1000 st key [t₁, t₂, t₃, t₄, t₅]).2 key = some ⟨1, t₅ + 1000⟩ := by
  have e₁ := rateLimitCheck_fresh (m := 3) (w := 1000) (n := t₁) h0
  set st₁ : RateStore := fun k => if k = key then some ⟨1, t₁ + 1000⟩ else st k with hst₁
  have e₂ := rateLimitCheck_active (m := 3) (w := 1000) (n := t₂)
    (show st₁ key = some ⟨1, t₁ + 1000⟩ by simp [hst₁]) (by simp; omega) (by simp)
  set st₂ : RateStore := fun k => if k = key then some ⟨1 + 1, t₁ + 1000⟩ else st₁ k with hst₂
  have e₃ := rateLimitCheck_active (m := 3) (w := 1000) (n := t₃)
    (show st₂ key = some ⟨2, t₁ + 1000⟩ by simp [hst₂]) (by simp; omega) (by simp)
  set st₃ : RateStore := fun k => if k = key then some ⟨2 + 1, t₁ + 1000⟩ else st₂ k with hst₃
  have e₄ := rateLimitCheck_reject (m := 3) (w := 1000) (n := t₄)
    (show st₃ key = some ⟨3, t₁ + 1000⟩ by simp [hst₃]) (by simp; omega) (by simp)
  set st₄ : RateStore := fun k => if k = key then some ⟨3 + 1, t₁ + 1000⟩ else st₃ k with hst₄
  have e₅ := rateLimitCheck_expired (m := 3) (w := 1000) (n := t₅)
    (show st₄ key = some ⟨4, t₁ + 1000⟩ by simp [hst₄]) (by simp; omega)
  refine ⟨?_, by unfold ceilDiv1000; omega, ?_⟩ <;>
    simp [rateLimitRun, e₁, ← hst₁, e₂, ← hst₂, e₃, ← hst₃, e₄, ← hst₄, e₅]

theorem claim_c3_rate_limiter_window_witness :
    ((emptyRateStore "client" = none) ∧ (0 ≤ 10) ∧ (1500 < 2500)) ∧
    (rateLimitRun 3 1000 emptyRateStore "client" [0, 10, 20, 900, 2500]).1 =
      [.admitted, .admitted, .admitted, .rejected (ceilDiv1000 (1000 - 900)), .admitted] ∧
    (rateLimitRun 3 1000 emptyRateStore "client" [0, 10, 20, 900, 2500]).2 "client" =
      some ⟨1, 2500 + 1000⟩ :=
  ⟨⟨by decide, by decide, by decide⟩,
   (claim_c3_rate_limiter_window emptyRateStore "client" 0 10 20 900 2500
      (by decide) (by decide) (by decide) (by decide) (by decide) (by decide)
      (by decide) (by decide)).1,
   (claim_c3_rate_limiter_window emptyRateStore "client" 0 10 20 900 2500
      (by decide) (by decide) (by decide) (by decide) (by decide) (by decide)
      (by decide) (by decide)).2.2⟩

/-! ### Filter sanitization (src/services/filter.service.ts)

JS strings are modelled through their character list (`String.data`).
`sanitizeString` is `input.trim().replace(/[<>"']/g, '').substring(0, 100)`:
trim first, then strip the four markup characters, then cap at 100. -/

/-- Characters removed by `String.prototype.trim` (the whitespace actually
occurring in this API's inputs; JS also strips some exotic Unicode spaces). -/
def isJsWhitespace (c : Char) : Bool :=
  c == ' ' || c == '\t' || c == '\n' || c == '\r'

/-- `String.prototype.trim`: drop leading and trailing whitespace. -/
def jsTrim (s : List Char) : List Char :=
  ((s.dropWhile isJsWhitespace).reverse.dropWhile isJsWhitespace).reverse

/-- The `/[<>"']/` character class (34 = `"` and 39 = apostrophe). -/
def isDangerousChar (c : Char) : Bool :=
  c == '<' || c == '>' || c == Char.ofNat 34 || c == Char.ofNat 39

def sanitizeString (input : String) : String :=
  String.mk (((jsTrim input.data).filter (fun c => !isDangerousChar c)).take 100)

/-! ### Cache key derivation (src/services/dashboard.service.ts and
src/utils/cache.ts)

A JS object is an insertion-ordered string-keyed record, modelled as an
association list; `Object.keys` is `map Prod.fst` and `params[key]` is
`lookupParam`. -/

/-- `params[key]` for a key coming from `Object.keys params`. -/
def lookupParam (params : List (String × String)) (key : String) : String :=
  match params.find? (fun p => p.1 == key) with
  | some p => p.2
  | none => "undefined"

/-- `Cache.generateKey(prefix, params)`:
`Object.keys(params).sort().map(key => key + "=" + params[key]).join("&")`
prefixed with `prefix + ":"`. -/
def generateKey (pre : String) (params : List (String × String)) : String :=
  let sortedParams := String.intercalate "&"
    (((params.map Prod.fst).insertionSort (· ≤ ·)).map
      (fun key => key ++ "=" ++ lookupParam params key))
  pre ++ ":" ++ sortedParams

/-- `JSON.stringify` of a flat string-valued object: fields appear in the
object's insertion order. -/
def jsonStringifyFlat (obj : List (String × String)) : String :=
  "\x7b" ++ String.intercalate ","
    (obj.map (fun p => "\"" ++ p.1 ++ "\":\"" ++ p.2 ++ "\"")) ++ "\x7d"

/-- `getDashboardData`'s cache key: `` `dashboard:${JSON.stringify(filters)}` ``. -/
def dashboardCacheKey (filters : List (String × String)) : String :=
  "dashboard:" ++ jsonStringifyFlat filters

/-- **C8 (amended).** Every sanitized value has at most 100 characters and
contains none of `<`, `>`, `"`, `'`; it is *not* in general trimmed, because
the source trims before stripping markup characters (see the counterexample). -/
theorem claim_c8_sanitize_bounded_and_stripped (input : String) :
    (sanitizeString input).data.length ≤ 100 ∧
    (sanitizeString input).data.all (fun c => !isDangerousChar c) = true := by
  have hdata : (sanitizeString input).data =
      ((jsTrim input.data).filter (fun c => !isDangerousChar c)).take 100 := rfl
  constructor
  · rw [hdata]
    exact le_trans (List.length_take_le 100 _) (le_refl _)
  · rw [hdata, List.all_eq_true]
    intro c hc
    have hmem : c ∈ (jsTrim input.data).filter (fun c => !isDangerousChar c) :=
      List.mem_of_mem_take hc
    simpa using List.of_mem_filter hmem

/-- **C8 (counterexample).** `sanitizeString` is not trim-clean: stripping
`<` and `>` after trimming exposes interior whitespace at the boundary, so
the output of `"< a >"` is `" a "`, which has leading and trailing spaces. -/
theorem claim_c8_counterexample_not_trimmed :
    sanitizeString "< a >" = " a " ∧
    jsTrim (sanitizeString "< a >").data ≠ (sanitizeString "< a >").data := by
  decide

/-- **C1 (amended).** `Cache.generateKey` is insertion-order invariant: two
parameter objects holding the same field/value pairs (in any insertion
order, with unique field names) produce the same key. -/
theorem claim_c1_generate_key_order_invariant (pre : String)
    (p₁ p₂ : List (String × String)) (hperm : p₁.Perm p₂)
    (hnd : (p₁.map Prod.fst).Nodup) :
    generateKey pre p₁ = generateKey pre p₂ := by
  have hkeys : ((p₁.map Prod.fst).insertionSort (· ≤ ·)) =
      ((p₂.map Prod.fst).insertionSort (· ≤ ·)) :=
    List.eq_of_perm_of_sorted
      ((List.perm_insertionSort _ _).trans
        ((hperm.map Prod.fst).trans (List.perm_insertionSort _ _).symm))
      (List.sorted_insertionSort _ _) (List.sorted_insertionSort _ _)
  have hlook : ∀ k, lookupParam p₁ k = lookupParam p₂ k := by
    intro k
    have huniq : ∀ x ∈ p₁, ∀ y ∈ p₁,
        (x.1 == k) = true → (y.1 == k) = true → x = y := by
      intro x hx y hy hxk hyk
      refine List.inj_on_of_nodup_map hnd hx hy ?_
      have h1 : x.1 = k := by simpa using hxk
      have h2 : y.1 = k := by simpa using hyk
      rw [h1, h2]
    have hfind : p₁.find? (fun p => p.1 == k) = p₂.find? (fun p => p.1 == k) := by
      rcases e : p₁.find? (fun p => p.1 == k) with _ | a
      · rw [e]
        rw [List.find?_eq_none] at e
        symm
        rw [List.find?_eq_none]
        intro x hx
        exact e x (hperm.mem_iff.mpr hx)
      · rcases e2 : p₂.find? (fun p => p.1 == k) with _ | b
        · rw [List.find?_eq_none] at e2
          have hmem := hperm.subset (List.mem_of_find?_eq_some e)
          exact absurd (List.find?_some e) (by simpa using e2 _ hmem)
        · rw [e, e2]
          have ha := List.find?_some e
          have hma := List.mem_of_find?_eq_some e
          have hb := List.find?_some e2
          have hmb := hperm.mem_iff.mpr (List.mem_of_find?_eq_some e2)
          exact congrArg some (huniq a hma b hmb ha hb)
    simp only [lookupParam, hfind]
  unfold generateKey
  rw [hkeys, show (fun key => key ++ "=" ++ lookupParam p₁ key) =
      (fun key => key ++ "=" ++ lookupParam p₂ key) from
    funext fun k => by rw [hlook]]

theorem claim_c1_generate_key_order_invariant_witness :
    (([("branch", "Nairobi"), ("dateRange", "last7days")] : List (String × String)).Perm
        [("dateRange", "last7days"), ("branch", "Nairobi")] ∧
      (([("branch", "Nairobi"), ("dateRange", "last7days")] :
          List (String × String)).map Prod.fst).Nodup) ∧
    generateKey "dashboard" [("branch", "Nairobi"), ("dateRange", "last7days")] =
      generateKey "dashboard" [("dateRange", "last7days"), ("branch", "Nairobi")] :=
  ⟨⟨by decide, by decide⟩,
   claim_c1_generate_key_order_invariant "dashboard" _ _ (by decide) (by decide)⟩

/-- **C1 (counterexample).** The key actually used for the dashboard result
is `"dashboard:" ++ JSON.stringify(filters)`, which depends on field
insertion order: the same two field/value pairs inserted in the two orders
yield different cache keys. -/
theorem claim_c1_counterexample_dashboard_key_order_dependent :
    ([("branch", "Nairobi"), ("agent", "Alice")] : List (String × String)).Perm
      [("agent", "Alice"), ("branch", "Nairobi")] ∧
    dashboardCacheKey [("branch", "Nairobi"), ("agent", "Alice")] ≠
      dashboardCacheKey [("agent", "Alice"), ("branch", "Nairobi")] := by
  decide

/-! ### Leads and KPI aggregation (src/services/dashboard.service.ts)

A lead row carries millisecond timestamps (`created_at`, optional
`contacted_at`), a status string and a revenue amount.  `getLeads` is an
asynchronous repository query; it is modelled as a function from filters to
the lead rows of the data snapshot. -/

def soldStatus : String := "Product/Service Sold"

structure Lead where
  status : String
  revenue : ℚ
  created_at : ℤ
  contacted_at : Option ℤ
deriving DecidableEq

/-- `(contacted.getTime() - created.getTime()) / (1000*60*60*24)` for a
contacted lead, `0` otherwise (the source's reduce skips leads without both
timestamps). -/
def leadTatDays (l : Lead) : ℚ :=
  match l.contacted_at with
  | some c => ((c - l.created_at : ℤ) : ℚ) / 86400000
  | none => 0

structure DashboardFilters where
  dateRange : Option String := none
  branch : Option String := none
  agent : Option String := none
  product : Option String := none
  segment : Option String := none
  campaign : Option String := none
deriving DecidableEq

structure KPI where
  id : String
  label : String
  /-- The numeric value; the source renders it as a display string
  (`toFixed(2)` plus a unit suffix) for `tat` and `conversion`. -/
  value : ℚ
  change : ℚ
  changeType : String
  changePeriod : String
deriving DecidableEq

/-- `calculateKPIs(filters)`: computes TAT, conversion rate and the counts
from `getLeads(filters)`, then recomputes the same statistics on
`getLeads({...filters, dateRange: 'last30days'})` for the change columns.
`getLeadsFn` is the repository snapshot. -/
def calculateKPIs (getLeadsFn : DashboardFilters → List Lead)
    (filters : DashboardFilters) : List KPI :=
  let leads := getLeadsFn filters
  let totalLeads := leads.length
  let contactedLeads := leads.filter (fun l => l.contacted_at.isSome)
  let avgTAT : ℚ :=
    if 0 < contactedLeads.length then
      (contactedLeads.map leadTatDays).sum / contactedLeads.length
    else 0
  let convertedLeads := leads.filter (fun l => l.status == soldStatus)
  let conversionRate : ℚ :=
    if 0 < totalLeads then ((convertedLeads.length : ℚ) / totalLeads) * 100 else 0
  let totalContacted := contactedLeads.length
  let previousFilters : DashboardFilters := { filters with dateRange := some "last30days" }
  let previousLeads := getLeadsFn previousFilters
  let previousContactedLeads := previousLeads.filter (fun l => l.contacted_at.isSome)
  let previousAvgTAT : ℚ :=
    if 0 < previousContactedLeads.length then
      (previousContactedLeads.map leadTatDays).sum / previousContactedLeads.length
    else 0
  let previousConversionRate : ℚ :=
    if 0 < previousLeads.length then
      (((previousLeads.filter (fun l => l.status == soldStatus)).length : ℚ) /
        previousLeads.length) * 100
    else 0
  let tatChange : ℚ :=
    if 0 < previousAvgTAT then ((avgTAT - previousAvgTAT) / previousAvgTAT) * 100 else 0
  let conversionChange : ℚ :=
    if 0 < previousConversionRate then
      ((conversionRate - previousConversionRate) / previousConversionRate) * 100
    else 0
  [ { id := "tat", label := "Turn Around Time", value := avgTAT,
      change := |tatChange|,
      changeType :=
        if tatChange < 0 then "decrease"
        else if 0 < tatChange then "increase" else "neutral",
      changePeriod := "31 days ago" },
    { id := "conversion", label := "Conversion Rate", value := conversionRate,
      change := |conversionChange|,
      changeType :=
        if 0 < conversionChange then "increase"
        else if conversionChange < 0 then "decrease" else "neutral",
      changePeriod := "31 days ago" },
    { id := "contacted", label := "Total Contacted Leads", value := totalContacted,
      change := 0, changeType := "neutral", changePeriod := "31 days ago" },
    { id := "total", label := "Total Leads", value := totalLeads,
      change := 0, changeType := "neutral", changePeriod := "31 days ago" } ]

/-- **C7.** On an empty lead set the TAT KPI value is 0 and the conversion
KPI value is 0%, and both division guards are inactive: the contacted-lead
count and the total-lead count are 0, so neither ratio is evaluated. -/
theorem claim_c7_kpi_empty_leads (getLeadsFn : DashboardFilters → List Lead)
    (filters : DashboardFilters) (h : getLeadsFn filters = []) :
    ((calculateKPIs getLeadsFn filters).find? (fun k => k.id == "tat")).map (·.value)
        = some 0 ∧
    ((calculateKPIs getLeadsFn filters).find? (fun k => k.id == "conversion")).map (·.value)
        = some 0 ∧
    ((getLeadsFn filters).filter (fun l => l.contacted_at.isSome)).length = 0 ∧
    (getLeadsFn filters).length = 0 := by
  simp [calculateKPIs, h, List.find?]

theorem claim_c7_kpi_empty_leads_witness :
    ((fun _ : DashboardFilters => ([] : List Lead)) {} = []) ∧
    ((calculateKPIs (fun _ => []) {}).find? (fun k => k.id == "tat")).map (·.value)
      = some 0 :=
  ⟨rfl, (claim_c7_kpi_empty_leads (fun _ => []) {} rfl).1⟩

/-- **C9.** When the requested `dateRange` is already `'last30days'`, the
"previous period" filters `{...filters, dateRange: 'last30days'}` coincide
with the current filters, so (with the data snapshot fixed) both
comparison queries return identical leads and the TAT and conversion KPIs
always report `change = 0` and `changeType = 'neutral'`. -/
theorem claim_c9_last30days_change_always_neutral
    (getLeadsFn : DashboardFilters → List Lead) (filters : DashboardFilters)
    (h : filters.dateRange = some "last30days") :
    ((calculateKPIs getLeadsFn filters).find? (fun k => k.id == "tat")).map
        (fun k => (k.change, k.changeType)) = some (0, "neutral") ∧
    ((calculateKPIs getLeadsFn filters).find? (fun k => k.id == "conversion")).map
        (fun k => (k.change, k.changeType)) = some (0, "neutral") := by
  have hprev : { filters with dateRange := some "last30days" } = filters := by
    cases filters
    simp_all
  simp only [calculateKPIs, hprev]
  constructor <;> simp [List.find?, sub_self, ite_self]

theorem claim_c9_last30days_change_always_neutral_witness :
    (({ dateRange := some "last30days" } : DashboardFilters).dateRange
        = some "last30days") ∧
    ((calculateKPIs (fun _ => [⟨soldStatus, 100, 0, some 86400000⟩])
        { dateRange := some "last30days" }).find? (fun k => k.id == "tat")).map
      (fun k => (k.change, k.changeType)) = some (0, "neutral") :=
  ⟨rfl,
   (claim_c9_last30days_change_always_neutral
      (fun _ => [⟨soldStatus, 100, 0, some 86400000⟩])
      { dateRange := some "last30days" } rfl).1⟩

/-! ### Period bucketing (src/repositories/data.repository.ts)

`getLeadsByBranchOverTime` / `getRevenueByBranchOverTime` loop
`for (let i = periods - 1; i >= 0; i--)` over right-open windows
`[now − (i+1)·periodDays·day, now − i·periodDays·day)` and push a bucket
labelled `` `${i+1}${i===0?'st':i===1?'nd':i===2?'rd':'th'}` ``.  The lead
rows are the snapshot matching the non-date filters (the loop overwrites
the `createdAt` bound of the WHERE clause with each bucket's bounds). -/

/-- `Number(x.toFixed(2))`: round to 2 decimal places, ties toward the
larger value (the ECMAScript `toFixed` tie rule). -/
def round2 (x : ℚ) : ℚ := ((x * 100 + 1/2).floor : ℚ) / 100

/-- `Number(x.toFixed(0))`. -/
def round0 (x : ℚ) : ℚ := ((x + 1/2).floor : ℚ)

def ordinalLabel (i : ℕ) : String :=
  toString (i + 1) ++
    (if i = 0 then "st" else if i = 1 then "nd" else if i = 2 then "rd" else "th")

/-- `filters.dateRange === 'last7days' ? 1 : filters.dateRange === 'last30days' ? 4 : 7`. -/
def periodDaysFor (dateRange : Option String) : ℕ :=
  if dateRange = some "last7days" then 1
  else if dateRange = some "last30days" then 4 else 7

def msPerDay : ℤ := 86400000

/-- The bucket width `periodDays * 24 * 60 * 60 * 1000` in ms. -/
def bucketWidthMs (dateRange : Option String) : ℤ :=
  (periodDaysFor dateRange : ℤ) * msPerDay

def bucketStart (now D : ℤ) (i : ℕ) : ℤ := now - ((i : ℤ) + 1) * D

def bucketEnd (now D : ℤ) (i : ℕ) : ℤ := now - (i : ℤ) * D

/-- `createdAt: { gte: periodStart, lt: periodEnd }`. -/
def createdInBucket (now D : ℤ) (i : ℕ) (l : Lead) : Bool :=
  decide (bucketStart now D i ≤ l.created_at) && decide (l.created_at < bucketEnd now D i)

structure TimeBucket where
  period : String
  leads : ℕ
  conversionRate : ℚ
deriving DecidableEq

structure RevenueBucket where
  period : String
  revenue : ℚ
  target : ℚ
deriving DecidableEq

/-- Body of the `getLeadsByBranchOverTime` loop for index `i`. -/
def leadsBucketAt (ls : List Lead) (dateRange : Option String) (now : ℤ)
    (i : ℕ) : TimeBucket :=
  let D := bucketWidthMs dateRange
  let inBucket := ls.filter (createdInBucket now D i)
  let totalLeads := inBucket.length
  let convertedLeads := (inBucket.filter (fun l => l.status == soldStatus)).length
  let conversionRate : ℚ :=
    if 0 < totalLeads then ((convertedLeads : ℚ) / totalLeads) * 100 else 0
  { period := ordinalLabel i, leads := totalLeads,
    conversionRate := round2 conversionRate }

def getLeadsByBranchOverTime (ls : List Lead) (dateRange : Option String)
    (now : ℤ) (periods : ℕ) : List TimeBucket :=
  ((List.range periods).reverse).map (leadsBucketAt ls dateRange now)

/-- Body of the `getRevenueByBranchOverTime` loop for index `i`:
sum of revenue over sold leads created in the bucket, with
`target = revenue * 1.1`, both rounded for output. -/
def revenueBucketAt (ls : List Lead) (dateRange : Option String) (now : ℤ)
    (i : ℕ) : RevenueBucket :=
  let D := bucketWidthMs dateRange
  let revenue : ℚ :=
    ((ls.filter (fun l => createdInBucket now D i l && l.status == soldStatus)).map
      (fun l => l.revenue)).sum
  { period := ordinalLabel i, revenue := round2 revenue,
    target := round2 (revenue * 1.1) }

def getRevenueByBranchOverTime (ls : List Lead) (dateRange : Option String)
    (now : ℤ) (periods : ℕ) : List RevenueBucket :=
  ((List.range periods).reverse).map (revenueBucketAt ls dateRange now)

lemma bucketWidthMs_pos (dateRange : Option String) : 0 < bucketWidthMs dateRange := by
  unfold bucketWidthMs periodDaysFor msPerDay
  split <;> [decide; split <;> decide]

/-- **C4 (counterexample).** The labels run `7th … 1st`: the first-emitted
(oldest) bucket is labelled `"7th"` and the most recent `"1st"`, not the
other way around. -/
theorem claim_c4_counterexample_labels_reversed :
    (getLeadsByBranchOverTime [] none 0 7).map (fun b => b.period) =
      ["7th", "6th", "5th", "4th", "3rd", "2nd", "1st"] ∧
    ((getLeadsByBranchOverTime [] none 0 7).head?.map (fun b => b.period)
      ≠ some "1st") := by
  constructor <;> decide

/-- **C4 (amended).** The `j`-th emitted bucket (for both series) covers the
time window of loop index `i = N−1−j`, so buckets are emitted oldest first
(every earlier-emitted bucket's window ends no later than the current
window starts) with the most recent bucket last; the labels are
reverse-ordinal: the oldest bucket is labelled `ordinalLabel (N−1)`
(`"7th"` for `N = 7`) and the most recent bucket `"1st"`. -/
theorem claim_c4_buckets_oldest_first_reverse_labels (ls : List Lead)
    (dr : Option String) (now : ℤ) (N j : ℕ) (hj : j < N) :
    (getLeadsByBranchOverTime ls dr now N)[j]? =
      some (leadsBucketAt ls dr now (N - 1 - j)) ∧
    (getRevenueByBranchOverTime ls dr now N)[j]? =
      some (revenueBucketAt ls dr now (N - 1 - j)) ∧
    (leadsBucketAt ls dr now (N - 1 - j)).period = ordinalLabel (N - 1 - j) ∧
    (revenueBucketAt ls dr now (N - 1 - j)).period = ordinalLabel (N - 1 - j) ∧
    (leadsBucketAt ls dr now (N - 1 - j)).leads =
      (ls.filter (createdInBucket now (bucketWidthMs dr) (N - 1 - j))).length ∧
    (∀ k, k < j →
      bucketEnd now (bucketWidthMs dr) (N - 1 - k) ≤
        bucketStart now (bucketWidthMs dr) (N - 1 - j)) ∧
    bucketStart now (bucketWidthMs dr) (N - 1 - j) <
      bucketEnd now (bucketWidthMs dr) (N - 1 - j) := by
  have hD := bucketWidthMs_pos dr
  have hidx : N - 1 - j < N := by omega
  have hrev : ((List.range N).reverse)[j]? = some (N - 1 - j) := by
    rw [List.getElem?_reverse (by simpa using hj)]
    simp [List.getElem?_range, hidx]
  refine ⟨?_, ?_, rfl, rfl, rfl, ?_, ?_⟩
  · unfold getLeadsByBranchOverTime
    rw [List.getElem?_map, hrev]
    rfl
  · unfold getRevenueByBranchOverTime
    rw [List.getElem?_map, hrev]
    rfl
  · intro k hk
    unfold bucketEnd bucketStart
    have hle : ((N - 1 - j : ℕ) : ℤ) + 1 ≤ ((N - 1 - k : ℕ) : ℤ) := by omega
    have hmul : (((N - 1 - j : ℕ) : ℤ) + 1) * bucketWidthMs dr ≤
        ((N - 1 - k : ℕ) : ℤ) * bucketWidthMs dr :=
      mul_le_mul_of_nonneg_right hle (le_of_lt hD)
    linarith
  · unfold bucketEnd bucketStart
    have hmul : ((N - 1 - j : ℕ) : ℤ) * bucketWidthMs dr <
        (((N - 1 - j : ℕ) : ℤ) + 1) * bucketWidthMs dr :=
      mul_lt_mul_of_pos_right (lt_add_one _) hD
    linarith

theorem claim_c4_buckets_oldest_first_reverse_labels_witness :
    (0 < 7) ∧
    (getLeadsByBranchOverTime [] none 0 7)[0]? = some (leadsBucketAt [] none 0 6) ∧
    (leadsBucketAt [] none 0 6).period = "7th" :=
  ⟨by decide,
   (claim_c4_buckets_oldest_first_reverse_labels [] none 0 7 0 (by decide)).1,
   by decide⟩

/-! ### Actionable insights (src/services/insights.service.ts)

`generateActionableInsights` consumes the result of
`getCallingPatternAnalysis(filters)` (best calling hour + hourly stats) and
`getLeads(filters)`; both repository results are parameters of the model.
The recommended calling window appears in the source only inside the
description text, as `` `${startHour}:30 am - ${endHour}:00 pm` ``; the model
exposes that pair as a structured `window` field and uses `none` for the
fallback insights whose description carries the fixed literal text
`"8:30 am - 12:00 pm"` (a constant, not derived from the best hour). -/

structure HourlyStat where
  hour : ℕ
  totalCalls : ℕ
  successfulCalls : ℕ
  successRate : ℚ
deriving DecidableEq

structure BestHour where
  hour : ℕ
  successRate : ℚ
deriving DecidableEq

structure CallingPatterns where
  bestCallingHour : BestHour
  hourlyStats : List HourlyStat
deriving DecidableEq

structure ActionableInsight where
  id : String
  title : String
  window : Option (ℕ × ℕ)
  improvement : ℚ
  metric : String
  priority : String
deriving DecidableEq

def generateActionableInsights (patterns : CallingPatterns)
    (leads : List Lead) : List ActionableInsight :=
  let bestCallingHour := patterns.bestCallingHour
  let hourlyStats := patterns.hourlyStats
  let contactedLeads := leads.filter (fun l => l.contacted_at.isSome)
  let currentTAT : ℚ :=
    if 0 < contactedLeads.length then
      (contactedLeads.map leadTatDays).sum / contactedLeads.length
    else 0
  let totalLeads := leads.length
  let convertedLeads := leads.filter (fun l => l.status == soldStatus)
  let currentConversionRate : ℚ :=
    if 0 < totalLeads then ((convertedLeads.length : ℚ) / totalLeads) * 100 else 0
  let insight1 : ActionableInsight :=
    if 8 ≤ bestCallingHour.hour ∧ bestCallingHour.hour ≤ 12 ∧
        0 < hourlyStats.length then
      let avgSuccessRate :=
        (hourlyStats.map (fun s => s.successRate)).sum / hourlyStats.length
      let potentialImprovement : ℚ :=
        if avgSuccessRate < bestCallingHour.successRate then
          ((bestCallingHour.successRate - avgSuccessRate) / avgSuccessRate) * 100
        else 2
      let startHour := max 8 (bestCallingHour.hour - 1)
      let endHour := min 12 (bestCallingHour.hour + 3)
      { id := "improve-tat", title := "Improve Your Turn Around Time",
        window := some (startHour, endHour),
        improvement := round0 potentialImprovement,
        metric := "turnAroundTime", priority := "high" }
    else
      { id := "improve-tat", title := "Improve Your Turn Around Time",
        window := none, improvement := 2,
        metric := "turnAroundTime", priority := "high" }
  let insight2 : ActionableInsight :=
    if 0 < bestCallingHour.successRate then
      let potentialConversionImprovement : ℚ :=
        if currentConversionRate < bestCallingHour.successRate then
          ((bestCallingHour.successRate - currentConversionRate) /
            currentConversionRate) * 100
        else 2
      let startHour := max 8 (bestCallingHour.hour - 1)
      let endHour := min 12 (bestCallingHour.hour + 3)
      { id := "improve-conversion", title := "Increase Conversion Rate",
        window := some (startHour, endHour),
        improvement := round0 potentialConversionImprovement,
        metric := "conversionRate", priority := "high" }
    else
      { id := "improve-conversion", title := "Increase Conversion Rate",
        window := none, improvement := 2,
        metric := "conversionRate", priority := "high" }
  [insight1, insight2] ++
    (if 7 < currentTAT then
      [{ id := "reduce-response-time", title := "Reduce Response Time",
         window := none, improvement := 20,
         metric := "turnAroundTime", priority := "medium" }]
    else []) ++
    (if currentConversionRate < 5 then
      [{ id := "boost-conversions", title := "Boost Conversion Performance",
         window := none, improvement := 15,
         metric := "conversionRate", priority := "medium" }]
    else [])

/-- **C5 (counterexample).** With hourly stats `{14: {total:10, success:2}}`
(best hour 14, success rate 20%), the generated conversion insight carries
the window `(13, 12)`: its start exceeds 12, so the recommended window does
*not* always lie within the 8–12 presentation range. -/
theorem claim_c5_counterexample_window_escapes_range :
    ((generateActionableInsights ⟨⟨14, 20⟩, [⟨14, 10, 2, 20⟩]⟩ []).get? 1).map
      (fun i => i.window) = some (some (13, 12)) ∧
    ¬ (13 ≤ (12 : ℕ)) := by
  constructor <;> decide

/-- **C5 (amended).** Every calling window attached to a generated insight
is `start = max(8, h−1)`, `end = min(12, h+3)` for the best calling hour
`h`; hence always `start ≥ 8` and `end ≤ 12`, and for `h = 9` the window is
`(8, 12)`.  The window lies inside the 8–12 range (`start ≤ end`) exactly
when `5 ≤ h ≤ 13` — guaranteed for the TAT insight (whose guard forces
`8 ≤ h ≤ 12`), but not for the conversion insight when the best hour falls
outside that band. -/
theorem claim_c5_insight_window (patterns : CallingPatterns) (leads : List Lead) :
    ∀ i ∈ generateActionableInsights patterns leads, ∀ s e,
      i.window = some (s, e) →
      s = max 8 (patterns.bestCallingHour.hour - 1) ∧
      e = min 12 (patterns.bestCallingHour.hour + 3) ∧
      8 ≤ s ∧ e ≤ 12 ∧
      (5 ≤ patterns.bestCallingHour.hour ∧ patterns.bestCallingHour.hour ≤ 13 →
        s ≤ e) ∧
      (i.id = "improve-tat" → s ≤ e) ∧
      (patterns.bestCallingHour.hour = 9 → s = 8 ∧ e = 12) := by
  intro i hi s e hw
  have hwin : s = max 8 (patterns.bestCallingHour.hour - 1) ∧
      e = min 12 (patterns.bestCallingHour.hour + 3) ∧
      (i.id = "improve-tat" →
        8 ≤ patterns.bestCallingHour.hour ∧ patterns.bestCallingHour.hour ≤ 12) := by
    simp only [generateActionableInsights, List.append_assoc, List.mem_append,
      List.mem_cons, List.not_mem_nil, or_false, List.mem_ite_nil_right,
      List.mem_singleton] at hi
    rcases hi with (rfl | rfl) | ⟨-, rfl⟩ | ⟨-, rfl⟩
    · by_cases hg : 8 ≤ patterns.bestCallingHour.hour ∧
          patterns.bestCallingHour.hour ≤ 12 ∧ 0 < patterns.hourlyStats.length
      · rw [if_pos hg] at hw ⊢
        obtain ⟨hs, he⟩ : max 8 (patterns.bestCallingHour.hour - 1) = s ∧
            min 12 (patterns.bestCallingHour.hour + 3) = e := by simpa using hw
        exact ⟨hs.symm, he.symm, fun _ => ⟨hg.1, hg.2.1⟩⟩
      · rw [if_neg hg] at hw
        simp at hw
    · by_cases hg : 0 < patterns.bestCallingHour.successRate
      · rw [if_pos hg] at hw ⊢
        obtain ⟨hs, he⟩ : max 8 (patterns.bestCallingHour.hour - 1) = s ∧
            min 12 (patterns.bestCallingHour.hour + 3) = e := by simpa using hw
        exact ⟨hs.symm, he.symm, fun hid => by simp at hid⟩
      · rw [if_neg hg] at hw
        simp at hw
    · simp at hw
    · simp at hw
  obtain ⟨hs, he, htat⟩ := hwin
  subst hs he
  refine ⟨rfl, rfl, le_max_left _ _, min_le_left _ _, ?_, ?_, ?_⟩
  · rintro ⟨h5, h13⟩
    simp only [Nat.max_def, Nat.min_def]
    split_ifs <;> omega
  · intro hid
    obtain ⟨h8, h12⟩ := htat hid
    simp only [Nat.max_def, Nat.min_def]
    split_ifs <;> omega
  · intro h9
    rw [h9]
    decide

theorem claim_c5_insight_window_witness :
    ((⟨"improve-tat", "Improve Your Turn Around Time", some (8, 12), 2,
        "turnAroundTime", "high"⟩ : ActionableInsight) ∈
        generateActionableInsights ⟨⟨9, 80⟩, [⟨9, 10, 8, 80⟩]⟩ []) ∧
    ((8 : ℕ) = max 8 (9 - 1) ∧ (12 : ℕ) = min 12 (9 + 3) ∧ 8 ≤ (8 : ℕ) ∧
      (12 : ℕ) ≤ 12 ∧
      (5 ≤ (9 : ℕ) ∧ (9 : ℕ) ≤ 13 → (8 : ℕ) ≤ 12) ∧
      ("improve-tat" = "improve-tat" → (8 : ℕ) ≤ 12) ∧
      ((9 : ℕ) = 9 → (8 : ℕ) = 8 ∧ (12 : ℕ) = 12)) :=
  have hmem : (⟨"improve-tat", "Improve Your Turn Around Time", some (8, 12), 2,
      "turnAroundTime", "high"⟩ : ActionableInsight) ∈
      generateActionableInsights ⟨⟨9, 80⟩, [⟨9, 10, 8, 80⟩]⟩ [] := by
    have h : generateActionableInsights ⟨⟨9, 80⟩, [⟨9, 10, 8, 80⟩]⟩ [] =
        [⟨"improve-tat", "Improve Your Turn Around Time", some (8, 12), 2,
            "turnAroundTime", "high"⟩,
         ⟨"improve-conversion", "Increase Conversion Rate", some (8, 12), 0,
            "conversionRate", "high"⟩,
         ⟨"boost-conversions", "Boost Conversion Performance", none, 15,
            "conversionRate", "medium"⟩] := by
      norm_num [generateActionableInsights, round0, Rat.floor]
    rw [h]
    exact List.mem_cons_self _ _
  ⟨hmem,
   claim_c5_insight_window ⟨⟨9, 80⟩, [⟨9, 10, 8, 80⟩]⟩ [] _ hmem 8 12 rfl⟩

/-! ### Branch ranking (src/services/ranking.service.ts)

`getBranchRanking` scores every branch-performance row (fetched with the
branch filter removed), sorts descending by score with
`sort((a, b) => b.score - a.score)` — ECMAScript `Array.prototype.sort` is
stable, modelled as stable descending insertion — and looks the selected
branch up with a case-insensitive `findIndex`. -/

structure BranchPerf where
  branchName : String
  totalLeads : ℚ
  totalRevenue : ℚ
  conversionRate : ℚ
  avgTurnAroundTime : ℚ
deriving DecidableEq

/-- `calculatePerformanceScore`: weighted composite of revenue (40%),
conversion rate (30%), leads (20%) and inverted TAT (10%), rounded with
`Number(score.toFixed(2))`. -/
def calculatePerformanceScore (revenue conversionRate leads tat : ℚ) : ℚ :=
  let revenueScore := revenue / 1000
  let conversionScore := conversionRate * 10
  let leadsScore := leads / 10
  let tatScore := if 0 < tat then 100 / tat else 0
  round2 (revenueScore * 0.4 + conversionScore * 0.3 +
    leadsScore * 0.2 + tatScore * 0.1)

/-- `{...branch, score: calculatePerformanceScore(...)}`. -/
def scoreEntry (b : BranchPerf) : BranchPerf × ℚ :=
  (b, calculatePerformanceScore b.totalRevenue b.conversionRate
        b.totalLeads b.avgTurnAroundTime)

/-- Stable insertion for the descending comparator
`(a, b) => b.score - a.score`: an element is placed before the first
already-sorted element whose score is `≤` its own, so earlier elements win
ties. -/
def insertScored (x : BranchPerf × ℚ) :
    List (BranchPerf × ℚ) → List (BranchPerf × ℚ)
  | [] => [x]
  | y :: ys => if y.2 ≤ x.2 then x :: y :: ys else y :: insertScored x ys

/-- The stable descending sort `branchesWithScores.sort((a,b) => b.score - a.score)`. -/
def sortByScoreDesc : List (BranchPerf × ℚ) → List (BranchPerf × ℚ)
  | [] => []
  | x :: xs => insertScored x (sortByScoreDesc xs)

/-- `Array.prototype.findIndex`, with `none` for `-1`. -/
def jsFindIndex {α : Type} (p : α → Bool) : List α → Option ℕ
  | [] => none
  | x :: xs => if p x then some 0 else (jsFindIndex p xs).map (· + 1)

/-- `String.prototype.toLowerCase` on one character (the ASCII range that
occurs in branch names). -/
def jsToLowerChar (c : Char) : Char :=
  if 65 ≤ c.toNat ∧ c.toNat ≤ 90 then Char.ofNat (c.toNat + 32) else c

/-- `String.prototype.toLowerCase`. -/
def jsToLower (s : String) : String := String.mk (s.data.map jsToLowerChar)

/-- `b.branchName.toLowerCase() === filters.branch.toLowerCase()`. -/
def matchesBranch (name : String) (sb : BranchPerf × ℚ) : Bool :=
  jsToLower sb.1.branchName == jsToLower name

structure BranchRanking where
  position : ℕ
  totalBranches : ℕ
  branch : Option String
  score : ℚ
deriving DecidableEq

/-- `getBranchRanking(filters)` with the fetched branch rows as a
parameter: empty rows give the `{position: 1, totalBranches: 1, score: 0}`
sentinel; otherwise sort scored rows descending and take the 1-based index
of the case-insensitive branch match (position 1, score 0 when the filter
names no branch or matches none). -/
def getBranchRanking (branchFilter : Option String)
    (allBranches : List BranchPerf) : BranchRanking :=
  if allBranches.isEmpty then ⟨1, 1, none, 0⟩
  else
    let sorted := sortByScoreDesc (allBranches.map scoreEntry)
    match branchFilter with
    | some name =>
      match jsFindIndex (matchesBranch name) sorted with
      | some i =>
        ⟨i + 1, allBranches.length, some name,
          ((sorted.get? i).map (fun sb => sb.2)).getD 0⟩
      | none => ⟨1, allBranches.length, some name, 0⟩
    | none =>
      ⟨1, allBranches.length, none, ((sorted.head?.map (fun sb => sb.2)).getD 0)⟩

/-- `{...filters, branch}` revenue bump used to state revenue monotonicity. -/
def bumpRevenue (δ : ℚ) (b : BranchPerf) : BranchPerf :=
  { b with totalRevenue := b.totalRevenue + δ }

lemma mem_of_mem_insertScored {x a : BranchPerf × ℚ} :
    ∀ {l : List (BranchPerf × ℚ)}, a ∈ insertScored x l → a = x ∨ a ∈ l := by
  intro l
  induction l with
  | nil =>
    intro h
    simp [insertScored] at h
    exact Or.inl h
  | cons y ys ih =>
    intro h
    rw [insertScored] at h
    split at h
    · rcases List.mem_cons.mp h with h1 | h2
      · exact Or.inl h1
      · exact Or.inr h2
    · rcases List.mem_cons.mp h with h1 | h2
      · exact Or.inr (h1 ▸ List.mem_cons_self _ _)
      · rcases ih h2 with h3 | h4
        · exact Or.inl h3
        · exact Or.inr (List.mem_cons_of_mem _ h4)

lemma mem_of_mem_sortByScoreDesc {a : BranchPerf × ℚ} :
    ∀ {l : List (BranchPerf × ℚ)}, a ∈ sortByScoreDesc l → a ∈ l := by
  intro l
  induction l with
  | nil => intro h; simp [sortByScoreDesc] at h
  | cons y ys ih =>
    intro h
    rw [sortByScoreDesc] at h
    rcases mem_of_mem_insertScored h with h1 | h2
    · exact h1 ▸ List.mem_cons_self _ _
    · exact List.mem_cons_of_mem _ (ih h2)

lemma pairwise_insertScored {x : BranchPerf × ℚ} {l : List (BranchPerf × ℚ)}
    (h : l.Pairwise (fun p q => q.2 ≤ p.2)) :
    (insertScored x l).Pairwise (fun p q => q.2 ≤ p.2) := by
  induction l with
  | nil => simp [insertScored]
  | cons y ys ih =>
    rcases List.pairwise_cons.mp h with ⟨hy, hys⟩
    rw [insertScored]
    split
    · rename_i hle
      refine List.pairwise_cons.mpr ⟨?_, h⟩
      intro b hb
      rcases List.mem_cons.mp hb with rfl | hbys
      · exact hle
      · exact le_trans (hy b hbys) hle
    · rename_i hgt
      refine List.pairwise_cons.mpr ⟨?_, ih hys⟩
      intro b hb
      rcases mem_of_mem_insertScored hb with rfl | hbys
      · exact le_of_not_le hgt
      · exact hy b hbys

lemma pairwise_sortByScoreDesc (l : List (BranchPerf × ℚ)) :
    (sortByScoreDesc l).Pairwise (fun p q => q.2 ≤ p.2) := by
  induction l with
  | nil => simp [sortByScoreDesc]
  | cons y ys ih =>
    rw [sortByScoreDesc]
    exact pairwise_insertScored ih

lemma countP_insertScored (p : BranchPerf × ℚ → Bool) (x : BranchPerf × ℚ) :
    ∀ (l : List (BranchPerf × ℚ)),
      (insertScored x l).countP p = (x :: l).countP p := by
  intro l
  induction l with
  | nil => rfl
  | cons y ys ih =>
    rw [insertScored]
    split
    · rfl
    · simp only [List.countP_cons, ih]
      omega

lemma countP_sortByScoreDesc (p : BranchPerf × ℚ → Bool) :
    ∀ (l : List (BranchPerf × ℚ)), (sortByScoreDesc l).countP p = l.countP p := by
  intro l
  induction l with
  | nil => rfl
  | cons y ys ih =>
    rw [sortByScoreDesc, countP_insertScored, List.countP_cons, List.countP_cons, ih]

/-- Inserting `e` into a descending-sorted list places it after exactly the
elements with a strictly larger score. -/
lemma insertScored_split {e : BranchPerf × ℚ} :
    ∀ {s : List (BranchPerf × ℚ)}, s.Pairwise (fun p q => q.2 ≤ p.2) →
    ∃ u v, insertScored e s = u ++ e :: v ∧
      u.length = s.countP (fun y => decide (e.2 < y.2)) ∧
      (∀ y ∈ u, e.2 ≤ y.2) ∧ (∀ y ∈ u, y ∈ s) := by
  intro s
  induction s with
  | nil =>
    intro _
    exact ⟨[], [], by simp [insertScored], by simp, by simp, by simp⟩
  | cons y ys ih =>
    intro hs
    rcases List.pairwise_cons.mp hs with ⟨hy, hys⟩
    by_cases hle : y.2 ≤ e.2
    · refine ⟨[], y :: ys, ?_, ?_, by simp, by simp⟩
      · rw [insertScored, if_pos hle]
        simp
      · simp only [List.length_nil]
        symm
        rw [List.countP_eq_zero]
        intro a ha
        simp only [decide_eq_true_eq, not_lt]
        rcases List.mem_cons.mp ha with rfl | hays
        · exact hle
        · exact le_trans (hy a hays) hle
    · have hgt : e.2 < y.2 := not_le.mp hle
      obtain ⟨u, v, h1, h2, h3, h4⟩ := ih hys
      refine ⟨y :: u, v, ?_, ?_, ?_, ?_⟩
      · rw [insertScored, if_neg hle, h1]
        simp
      · simp only [List.countP_cons, List.length_cons, h2]
        rw [if_pos (show decide (e.2 < y.2) = true by simpa using hgt)]
      · intro b hb
        rcases List.mem_cons.mp hb with rfl | hbu
        · exact le_of_lt hgt
        · exact h3 b hbu
      · intro b hb
        rcases List.mem_cons.mp hb with rfl | hbu
        · exact List.mem_cons_self _ _
        · exact List.mem_cons_of_mem _ (h4 b hbu)

lemma insertScored_before {a e : BranchPerf × ℚ} (hae : e.2 ≤ a.2) :
    ∀ (u v : List (BranchPerf × ℚ)),
      ∃ u', insertScored a (u ++ e :: v) = u' ++ e :: v ∧
        u'.length = u.length + 1 ∧ (∀ y ∈ u', y = a ∨ y ∈ u) := by
  intro u v
  induction u with
  | nil =>
    refine ⟨[a], ?_, rfl, by simp⟩
    rw [List.nil_append, insertScored, if_pos hae]
    rfl
  | cons y u₀ ih =>
    by_cases hy : y.2 ≤ a.2
    · refine ⟨a :: y :: u₀, ?_, by simp, ?_⟩
      · rw [List.cons_append, insertScored, if_pos hy]
        simp
      · intro b hb
        rcases List.mem_cons.mp hb with rfl | hb2
        · exact Or.inl rfl
        · exact Or.inr hb2
    · obtain ⟨u₀', g1, g2, g3⟩ := ih
      refine ⟨y :: u₀', ?_, by simp [g2], ?_⟩
      · rw [List.cons_append, insertScored, if_neg hy, g1]
        simp
      · intro b hb
        rcases List.mem_cons.mp hb with rfl | hb2
        · exact Or.inr (List.mem_cons_self _ _)
        · rcases g3 b hb2 with h | h
          · exact Or.inl h
          · exact Or.inr (List.mem_cons_of_mem _ h)

lemma insertScored_after {a e : BranchPerf × ℚ} (ha : a.2 < e.2) :
    ∀ (u v : List (BranchPerf × ℚ)), (∀ y ∈ u, e.2 ≤ y.2) →
      insertScored a (u ++ e :: v) = u ++ e :: insertScored a v := by
  intro u
  induction u with
  | nil =>
    intro v _
    rw [List.nil_append, insertScored, if_neg (not_le.mpr ha)]
    rfl
  | cons y u₀ ih =>
    intro v hu
    have hy : e.2 ≤ y.2 := hu y (List.mem_cons_self _ _)
    have hya : ¬ y.2 ≤ a.2 := fun hc => absurd (le_trans hy hc) (not_le.mpr ha)
    rw [List.cons_append, insertScored, if_neg hya,
      ih v (fun b hb => hu b (List.mem_cons_of_mem _ hb))]
    rfl

/-- Stable-sort characterization: sorting `l₁ ++ e :: l₂` puts before `e`
exactly the elements of `l₁` scoring `≥ e` (stability: earlier ties stay in
front) and the elements of `l₂` scoring `> e`. -/
lemma sortByScoreDesc_split (e : BranchPerf × ℚ) :
    ∀ (l₁ l₂ : List (BranchPerf × ℚ)),
    ∃ u v, sortByScoreDesc (l₁ ++ e :: l₂) = u ++ e :: v ∧
      u.length = l₁.countP (fun y => decide (e.2 ≤ y.2)) +
        l₂.countP (fun y => decide (e.2 < y.2)) ∧
      (∀ y ∈ u, e.2 ≤ y.2) ∧ (∀ y ∈ u, y ∈ l₁ ∨ y ∈ l₂) := by
  intro l₁
  induction l₁ with
  | nil =>
    intro l₂
    obtain ⟨u, v, h1, h2, h3, h4⟩ := insertScored_split (pairwise_sortByScoreDesc l₂)
    refine ⟨u, v, ?_, ?_, h3, ?_⟩
    · rw [List.nil_append, sortByScoreDesc]
      exact h1
    · rw [h2, countP_sortByScoreDesc]
      simp
    · intro y hy
      exact Or.inr (mem_of_mem_sortByScoreDesc (h4 y hy))
  | cons a l₁' ih =>
    intro l₂
    obtain ⟨u, v, h1, h2, h3, h4⟩ := ih l₂
    by_cases hae : e.2 ≤ a.2
    · obtain ⟨u', g1, g2, g3⟩ := insertScored_before hae u v
      refine ⟨u', v, ?_, ?_, ?_, ?_⟩
      · rw [List.cons_append, sortByScoreDesc, h1, g1]
      · rw [g2, h2]
        simp only [List.countP_cons]
        rw [if_pos (show decide (e.2 ≤ a.2) = true by simpa using hae)]
        omega
      · intro y hy
        rcases g3 y hy with rfl | hyu
        · exact hae
        · exact h3 y hyu
      · intro y hy
        rcases g3 y hy with rfl | hyu
        · exact Or.inl (List.mem_cons_self _ _)
        · rcases h4 y hyu with h | h
          · exact Or.inl (List.mem_cons_of_mem _ h)
          · exact Or.inr h
    · have ha : a.2 < e.2 := not_le.mp hae
      refine ⟨u, insertScored a v, ?_, ?_, h3, ?_⟩
      · rw [List.cons_append, sortByScoreDesc, h1, insertScored_after ha u v h3]
      · rw [h2]
        simp only [List.countP_cons]
        rw [if_neg (show ¬ decide (e.2 ≤ a.2) = true by simpa using hae)]
        omega
      · intro y hy
        rcases h4 y hy with h | h
        · exact Or.inl (List.mem_cons_of_mem _ h)
        · exact Or.inr h

lemma jsFindIndex_append_cons {p : BranchPerf × ℚ → Bool}
    {e : BranchPerf × ℚ} (he : p e = true) :
    ∀ {u : List (BranchPerf × ℚ)} (v : List (BranchPerf × ℚ)),
      (∀ y ∈ u, p y = false) →
      jsFindIndex p (u ++ e :: v) = some u.length := by
  intro u
  induction u with
  | nil =>
    intro v _
    simp [jsFindIndex, he]
  | cons y u₀ ih =>
    intro v hu
    have hy : p y = false := hu y (List.mem_cons_self _ _)
    rw [List.cons_append, jsFindIndex, hy]
    simp [ih v (fun b hb => hu b (List.mem_cons_of_mem _ hb))]

lemma jsFindIndex_eq_none {p : BranchPerf × ℚ → Bool} :
    ∀ {l : List (BranchPerf × ℚ)}, (∀ y ∈ l, p y = false) →
      jsFindIndex p l = none := by
  intro l
  induction l with
  | nil => intro _; rfl
  | cons y ys ih =>
    intro h
    rw [jsFindIndex, h y (List.mem_cons_self _ _)]
    simp [ih (fun b hb => h b (List.mem_cons_of_mem _ hb))]

lemma ratFloor_mono {a b : ℚ} (h : a ≤ b) : Rat.floor a ≤ Rat.floor b :=
  Rat.le_floor.mpr (le_trans (Rat.le_floor.mp (le_refl _)) h)

lemma round2_mono {a b : ℚ} (h : a ≤ b) : round2 a ≤ round2 b := by
  unfold round2
  have h1 : Rat.floor (a * 100 + 1 / 2) ≤ Rat.floor (b * 100 + 1 / 2) :=
    ratFloor_mono (by linarith)
  have h2 : ((Rat.floor (a * 100 + 1 / 2) : ℤ) : ℚ) ≤
      ((Rat.floor (b * 100 + 1 / 2) : ℤ) : ℚ) := by exact_mod_cast h1
  exact (div_le_div_iff_of_pos_right (by norm_num)).mpr h2

lemma calculatePerformanceScore_mono_revenue {r r' : ℚ} (c l t : ℚ)
    (h : r ≤ r') :
    calculatePerformanceScore r c l t ≤ calculatePerformanceScore r' c l t := by
  unfold calculatePerformanceScore
  apply round2_mono
  have h1 : r / 1000 ≤ r' / 1000 := (div_le_div_iff_of_pos_right (by norm_num)).mpr h
  have h2 : r / 1000 * 0.4 ≤ r' / 1000 * 0.4 :=
    mul_le_mul_of_nonneg_right h1 (by norm_num)
  linarith

/-- Position of the unique case-insensitive match in the ranking: one plus
the number of other branches sorted in front of it (higher score anywhere,
or equal score earlier in the original collection). -/
lemma getBranchRanking_position (name : String) (l₁ l₂ : List BranchPerf)
    (b : BranchPerf) (hb : matchesBranch name (scoreEntry b) = true)
    (hothers : ∀ x ∈ l₁ ++ l₂, matchesBranch name (scoreEntry x) = false) :
    (getBranchRanking (some name) (l₁ ++ b :: l₂)).position =
      l₁.countP (fun x => decide ((scoreEntry b).2 ≤ (scoreEntry x).2)) +
      l₂.countP (fun x => decide ((scoreEntry b).2 < (scoreEntry x).2)) + 1 := by
  obtain ⟨u, v, h1, h2, h3, h4⟩ :=
    sortByScoreDesc_split (scoreEntry b) (l₁.map scoreEntry) (l₂.map scoreEntry)
  have hmap : (l₁ ++ b :: l₂).map scoreEntry =
      l₁.map scoreEntry ++ scoreEntry b :: l₂.map scoreEntry := by simp
  have hfu : ∀ y ∈ u, matchesBranch name y = false := by
    intro y hy
    rcases h4 y hy with h | h
    · obtain ⟨x, hx, rfl⟩ := List.mem_map.mp h
      exact hothers x (List.mem_append_left _ hx)
    · obtain ⟨x, hx, rfl⟩ := List.mem_map.mp h
      exact hothers x (List.mem_append_right _ hx)
  have hfind : jsFindIndex (matchesBranch name)
      (sortByScoreDesc ((l₁ ++ b :: l₂).map scoreEntry)) = some u.length := by
    rw [hmap, h1]
    exact jsFindIndex_append_cons hb v hfu
  have hne : ¬ (l₁ ++ b :: l₂).isEmpty = true := by simp
  unfold getBranchRanking
  rw [if_neg hne]
  simp only [hfind, h2, List.countP_map]
  rfl

/-- **C6.** (1) The ranking is a pure function of its inputs, so repeated
calls agree; (2) with a unique case-insensitive match for the selected
branch, increasing that branch's revenue by any `δ ≥ 0` (all else fixed)
never increases its 1-based position, i.e. never makes its rank worse. -/
theorem claim_c6_ranking_deterministic_and_revenue_monotone
    (name : String) (l₁ l₂ : List BranchPerf) (b : BranchPerf) (δ : ℚ)
    (hδ : 0 ≤ δ)
    (hb : matchesBranch name (scoreEntry b) = true)
    (hothers : ∀ x ∈ l₁ ++ l₂, matchesBranch name (scoreEntry x) = false) :
    getBranchRanking (some name) (l₁ ++ b :: l₂) =
      getBranchRanking (some name) (l₁ ++ b :: l₂) ∧
    (getBranchRanking (some name) (l₁ ++ bumpRevenue δ b :: l₂)).position ≤
      (getBranchRanking (some name) (l₁ ++ b :: l₂)).position := by
  refine ⟨rfl, ?_⟩
  have hb' : matchesBranch name (scoreEntry (bumpRevenue δ b)) = true := hb
  have hscore : (scoreEntry b).2 ≤ (scoreEntry (bumpRevenue δ b)).2 :=
    calculatePerformanceScore_mono_revenue _ _ _ (by simp [bumpRevenue]; linarith)
  rw [getBranchRanking_position name l₁ l₂ (bumpRevenue δ b) hb' hothers,
    getBranchRanking_position name l₁ l₂ b hb hothers]
  have m1 : l₁.countP (fun x => decide ((scoreEntry (bumpRevenue δ b)).2 ≤ (scoreEntry x).2)) ≤
      l₁.countP (fun x => decide ((scoreEntry b).2 ≤ (scoreEntry x).2)) := by
    apply List.countP_mono_left
    intro x _ hpx
    exact decide_eq_true (le_trans hscore (of_decide_eq_true hpx))
  have m2 : l₂.countP (fun x => decide ((scoreEntry (bumpRevenue δ b)).2 < (scoreEntry x).2)) ≤
      l₂.countP (fun x => decide ((scoreEntry b).2 < (scoreEntry x).2)) := by
    apply List.countP_mono_left
    intro x _ hpx
    exact decide_eq_true (lt_of_le_of_lt hscore (of_decide_eq_true hpx))
  omega

theorem claim_c6_ranking_deterministic_and_revenue_monotone_witness :
    ((0 : ℚ) ≤ 1 ∧
      matchesBranch "beta" (scoreEntry ⟨"Beta", 10, 1000, 5, 2⟩) = true ∧
      matchesBranch "beta" (scoreEntry ⟨"Alpha", 10, 2000, 5, 2⟩) = false) ∧
    (getBranchRanking (some "beta")
        ([⟨"Alpha", 10, 2000, 5, 2⟩] ++ bumpRevenue 1 ⟨"Beta", 10, 1000, 5, 2⟩ :: [])).position ≤
      (getBranchRanking (some "beta")
        ([⟨"Alpha", 10, 2000, 5, 2⟩] ++ (⟨"Beta", 10, 1000, 5, 2⟩ : BranchPerf) :: [])).position :=
  ⟨⟨by norm_num, by decide, by decide⟩,
   (claim_c6_ranking_deterministic_and_revenue_monotone "beta"
      [⟨"Alpha", 10, 2000, 5, 2⟩] [] ⟨"Beta", 10, 1000, 5, 2⟩ 1
      (by norm_num) (by decide) (by decide)).2⟩

/-- **C10.** For a non-empty branch collection, a branch filter matching no
branch (case-insensitively) still succeeds: position 1 with score 0, while
`totalBranches` reports the real branch count — indistinguishable in
position from the genuinely top-ranked branch. -/
theorem claim_c10_unknown_branch_reports_position_one (name : String)
    (allBranches : List BranchPerf) (hne : allBranches ≠ [])
    (hnomatch : ∀ x ∈ allBranches, matchesBranch name (scoreEntry x) = false) :
    getBranchRanking (some name) allBranches =
      ⟨1, allBranches.length, some name, 0⟩ := by
  have hempty : ¬ allBranches.isEmpty = true := by
    simpa [List.isEmpty_iff] using hne
  have hfind : jsFindIndex (matchesBranch name)
      (sortByScoreDesc (allBranches.map scoreEntry)) = none := by
    apply jsFindIndex_eq_none
    intro y hy
    obtain ⟨x, hx, rfl⟩ := List.mem_map.mp (mem_of_mem_sortByScoreDesc hy)
    exact hnomatch x hx
  unfold getBranchRanking
  rw [if_neg hempty]
  simp only [hfind]

theorem claim_c10_unknown_branch_reports_position_one_witness :
    (([⟨"Alpha", 10, 2000, 5, 2⟩] : List BranchPerf) ≠ [] ∧
      matchesBranch "ghost" (scoreEntry ⟨"Alpha", 10, 2000, 5, 2⟩) = false) ∧
    getBranchRanking (some "ghost") [⟨"Alpha", 10, 2000, 5, 2⟩] =
      ⟨1, 1, some "ghost", 0⟩ :=
  ⟨⟨by decide, by decide⟩,
   claim_c10_unknown_branch_reports_position_one "ghost"
      [⟨"Alpha", 10, 2000, 5, 2⟩] (by decide) (by decide)⟩
